import Mathlib

/-!
Verification of the output-channel subsystem (OutputChannel and
OutputChannelManager) of the repository, shallowly embedded from the
TypeScript source in src/unnamed/part_000.  Mutable objects become
immutable records, method calls become functions from a record to an
updated record, and synchronous event-emitter cascades are inlined in
source order as explicit event lists returned alongside the new state.
-/

/-- State of one output channel: the fields of the TypeScript class
OutputChannel (source lines 166-248).  The constructor initialises
lines to the empty array, currentLine to undefined (here none),
visible to true and locked to false. -/
structure OutputChannel where
  name : String
  lines : List String
  currentLine : Option String
  visible : Bool
  locked : Bool
  deriving DecidableEq, Repr

/-- The state a freshly constructed channel has (source lines 172-175
together with the constructor at line 181). -/
def OutputChannel.mkNew (name : String) : OutputChannel :=
  { name := name, lines := [], currentLine := none, visible := true, locked := false }

/-- Embeds OutputChannel.append (source lines 189-196): if no current
line exists the argument becomes the accumulator, otherwise it is
concatenated onto it.  The content-change notification carries no
state, so it is omitted from the channel-level embedding. -/
def OutputChannel.append (ch : OutputChannel) (value : String) : OutputChannel :=
  match ch.currentLine with
  | none => { ch with currentLine := some value }
  | some c => { ch with currentLine := some (c ++ value) }

/-- Embeds OutputChannel.appendLine (source lines 198-210).  The
preference read at line 205 is modelled by the maxChannelHistory
argument, supplied afresh at each call.  splice(0, k) removing the
first k elements is List.drop k. -/
def OutputChannel.appendLine (ch : OutputChannel) (maxChannelHistory : Nat) (line : String) :
    OutputChannel :=
  let lines1 :=
    match ch.currentLine with
    | some c => ch.lines ++ [c ++ line]
    | none => ch.lines ++ [line]
  let lines2 :=
    if lines1.length > maxChannelHistory then
      lines1.drop (lines1.length - maxChannelHistory)
    else lines1
  { ch with lines := lines2, currentLine := none }

/-- Embeds OutputChannel.clear (source lines 212-216). -/
def OutputChannel.clear (ch : OutputChannel) : OutputChannel :=
  { ch with lines := [], currentLine := none }

/-- The state change of OutputChannel.setVisibility (source lines
218-221); the visibility-change event it fires is modelled at the
manager level where its subscriber lives. -/
def OutputChannel.setVisibilityFlag (ch : OutputChannel) (visible : Bool) : OutputChannel :=
  { ch with visible := visible }

/-- The state change of OutputChannel.toggleLocked (source lines
235-238); the lock-change event it fires is modelled at the manager
level where its subscriber lives. -/
def OutputChannel.toggleLockedFlag (ch : OutputChannel) : OutputChannel :=
  { ch with locked := !ch.locked }

/-- Embeds OutputChannel.getLines (source lines 223-229): with an
accumulator present it evaluates the spread [...this.lines,
this.currentLine], otherwise it returns this.lines. -/
def OutputChannel.getLines (ch : OutputChannel) : List String :=
  match ch.currentLine with
  | some c => ch.lines ++ [c]
  | none => ch.lines

/-- Records, per the branch getLines takes in the source (lines
223-229), whether the returned array is a freshly allocated copy.  The
then-branch builds a new array by spreading, so the caller gets a
fresh copy; the else-branch returns the internal this.lines array
itself, so the caller receives an alias of internal storage. -/
def OutputChannel.getLinesIsFreshCopy (ch : OutputChannel) : Bool :=
  match ch.currentLine with
  | some _ => true
  | none => false

/-- One call in a sequence of channel content operations. -/
inductive ChOp where
  | append (value : String)
  | appendLine (line : String)
  deriving DecidableEq, Repr

/-- Runs one content operation, reading the history bound afresh for
the call (the source re-reads the preference inside each appendLine). -/
def chStep (maxChannelHistory : Nat) (ch : OutputChannel) : ChOp → OutputChannel
  | ChOp.append v => ch.append v
  | ChOp.appendLine l => ch.appendLine maxChannelHistory l

/-- Runs a sequence of content operations under a fixed history bound. -/
def chRun (maxChannelHistory : Nat) (ch : OutputChannel) (ops : List ChOp) : OutputChannel :=
  ops.foldl (chStep maxChannelHistory) ch

/-- The line an appendLine call completes, as the spec words it: the
in-progress accumulator, when present, concatenated with the argument,
and the argument alone otherwise. -/
def completeLine (cur : Option String) (s : String) : String :=
  match cur with
  | some c => c ++ s
  | none => s

/-- Modelled from the spec words of the claim: the list of completed
lines of a call sequence, in call order, starting from the given
accumulator.  Each appendLine completes one line; append only extends
the accumulator. -/
def specCompletedLines : Option String → List ChOp → List String
  | _, [] => []
  | cur, ChOp.append v :: rest => specCompletedLines (some (completeLine cur v)) rest
  | cur, ChOp.appendLine l :: rest => completeLine cur l :: specCompletedLines none rest

/-- Modelled from the spec words of the claim: the trailing
unterminated content left after a call sequence, starting from the
given accumulator. -/
def specTrailing : Option String → List ChOp → Option String
  | cur, [] => cur
  | cur, ChOp.append v :: rest => specTrailing (some (completeLine cur v)) rest
  | _, ChOp.appendLine _ :: rest => specTrailing none rest

/-- State of the manager: the fields of the TypeScript class
OutputChannelManager (source lines 23-164).  The JS Map channels
becomes a list of channels in insertion order (Map.values order); the
property selectedChannelValue holds the selected channel, identified
here by name, which is a faithful surrogate for object identity
because the registry never holds two channels of one name; the Set
lockedChannels becomes a duplicate-free list in insertion order. -/
structure OutputChannelManager where
  channels : List OutputChannel
  selectedChannelValue : Option String
  lockedChannels : List String
  deriving DecidableEq, Repr

/-- Externally observable notifications, in the order the source fires
them.  Emitters that fire void payloads contribute payload-free
constructors.  console.warn calls are recorded as warning events. -/
inductive Event where
  | channelAdded (name : String)
  | channelDeleted (name : String)
  | selectionChanged
  | listOrSelectionChanged
  | channelLockToggled (name : String) (scrollLock : Bool)
  | managerLockChanged (name : String)
  | visibilityChanged (name : String) (visible : Bool)
  | warning (msg : String)
  deriving DecidableEq, Repr

/-- The manager as constructed (empty registry, no selection, no
recorded locked names), after the postConstruct init at source lines
62-82 has wired the emitters. -/
def OutputChannelManager.initial : OutputChannelManager :=
  { channels := [], selectedChannelValue := none, lockedChannels := [] }

/-- The channels.get lookup (source line 111): the registry entry of
the given name, when present. -/
def OutputChannelManager.getChannelByName (m : OutputChannelManager) (n : String) :
    Option OutputChannel :=
  m.channels.find? (fun c => c.name == n)

/-- Embeds getChannels (source lines 135-137): Array.from of the Map
values, in insertion order. -/
def OutputChannelManager.getChannels (m : OutputChannelManager) : List OutputChannel :=
  m.channels

/-- The names registered in the manager, in insertion order. -/
def OutputChannelManager.channelNames (m : OutputChannelManager) : List String :=
  m.channels.map (fun c => c.name)

/-- Embeds getVisibleChannels (source lines 139-141). -/
def OutputChannelManager.getVisibleChannels (m : OutputChannelManager) : List OutputChannel :=
  m.getChannels.filter (fun c => c.visible)

/-- Applies an in-place mutation of the channel object registered
under the given name: the registry itself is untouched, only the
object's state changes. -/
def OutputChannelManager.updateChannel (m : OutputChannelManager) (n : String)
    (f : OutputChannel → OutputChannel) : OutputChannelManager :=
  { m with channels := m.channels.map (fun c => if c.name == n then f c else c) }

/-- Embeds the selectedChannel setter (source lines 151-155): stores
the value unconditionally and fires the selection-changed and
list-or-selection-changed events. -/
def OutputChannelManager.setSelectedChannel (m : OutputChannelManager) (o : Option String) :
    OutputChannelManager × List Event :=
  ({ m with selectedChannelValue := o }, [Event.selectionChanged, Event.listOrSelectionChanged])

/-- Embeds a toggleLocked call on the channel registered under the
given name, together with the lock-change cascade: the channel flips
its flag and fires its lock-change event (source lines 235-238), whose
per-channel subscriber (source line 102) re-fires the manager-level
lock event.  A name not in the registry denotes no reachable channel
object, so the call is not representable and leaves the state as is. -/
def OutputChannelManager.toggleLockedByName (m : OutputChannelManager) (n : String) :
    OutputChannelManager × List Event :=
  match m.getChannelByName n with
  | none => (m, [])
  | some ch =>
    (m.updateChannel n OutputChannel.toggleLockedFlag,
     [Event.channelLockToggled n (!ch.locked), Event.managerLockChanged n])

/-- Embeds registerListener (source lines 84-108) for the channel
registered under the given name: select it when nothing is selected
yet, then restore the persisted lock flag by a single toggleLocked
when the name was recorded as locked and the channel is not locked
yet.  The visibility and lock subscriptions it installs are inlined
into the corresponding operations below. -/
def OutputChannelManager.registerListener (m : OutputChannelManager) (n : String) :
    OutputChannelManager × List Event :=
  let step1 : OutputChannelManager × List Event :=
    match m.selectedChannelValue with
    | none => m.setSelectedChannel (some n)
    | some _ => (m, [])
  let m1 := step1.1
  let step2 : OutputChannelManager × List Event :=
    if n ∈ m1.lockedChannels then
      match m1.getChannelByName n with
      | some ch => if ch.locked then (m1, []) else m1.toggleLockedByName n
      | none => (m1, [])
    else (m1, [])
  (step2.1, step1.2 ++ step2.2)

/-- Embeds getChannel (source lines 110-119).  When the name is new, a
channel is constructed and stored, and the added-event fires; its
subscriber installed by init (source lines 72-75) fires the
list-or-selection event and runs registerListener, all before
getChannel returns.  The returned channel is the stored object, so it
reflects any lock restoration done during registration. -/
def OutputChannelManager.getChannel (m : OutputChannelManager) (n : String) :
    OutputChannelManager × OutputChannel × List Event :=
  match m.getChannelByName n with
  | some existing => (m, existing, [])
  | none =>
    let ch0 := OutputChannel.mkNew n
    let m1 : OutputChannelManager := { m with channels := m.channels ++ [ch0] }
    let reg := m1.registerListener n
    let chRet := (reg.1.getChannelByName n).getD ch0
    (reg.1, chRet, Event.channelAdded n :: Event.listOrSelectionChanged :: reg.2)

/-- The channels.delete step of deleteChannel (source line 127): the
Map entry of the given name is removed, all other entries keep their
order. -/
def OutputChannelManager.removeFromRegistry (m : OutputChannelManager) (n : String) :
    OutputChannelManager :=
  { m with channels := m.channels.filter (fun c => !(c.name == n)) }

/-- Embeds deleteChannel (source lines 121-133).  An unknown name only
logs a warning.  Otherwise the entry is removed, the per-channel
disposables are disposed, and the delete-event fires; its subscriber
installed by init (source lines 76-81) fires the list-or-selection
event and, when the deleted name was the selected one, assigns the
first visible channel of the already-shrunk registry (or undefined) to
the selectedChannel setter. -/
def OutputChannelManager.deleteChannel (m : OutputChannelManager) (n : String) :
    OutputChannelManager × List Event :=
  match m.getChannelByName n with
  | none =>
    (m, [Event.warning ("Could not delete channel '" ++ n ++ "'. The channel does not exist.")])
  | some _ =>
    let m1 := m.removeFromRegistry n
    let step2 : OutputChannelManager × List Event :=
      if m1.selectedChannelValue = some n then
        m1.setSelectedChannel ((m1.getVisibleChannels.head?).map (fun c => c.name))
      else (m1, [])
    (step2.1, Event.channelDeleted n :: Event.listOrSelectionChanged :: step2.2)

/-- Embeds a setVisibility call (source lines 218-221) on the channel
registered under the given name, together with the per-channel
subscriber installed by registerListener (source lines 95-101): the
flag is stored and the visibility event fires unconditionally; a
visible event selects the channel, an invisible event on the selected
channel moves selection to the first visible channel or to none.  A
name not in the registry denotes no reachable channel object, so the
call is not representable and leaves the state as is. -/
def OutputChannelManager.setVisibility (m : OutputChannelManager) (n : String) (v : Bool) :
    OutputChannelManager × List Event :=
  match m.getChannelByName n with
  | none => (m, [])
  | some _ =>
    let m1 := m.updateChannel n (fun c => c.setVisibilityFlag v)
    let step2 : OutputChannelManager × List Event :=
      if v then m1.setSelectedChannel (some n)
      else if m1.selectedChannelValue = some n then
        m1.setSelectedChannel ((m1.getVisibleChannels.head?).map (fun c => c.name))
      else (m1, [])
    (step2.1, Event.visibilityChanged n v :: step2.2)

/-- Modelled from the spec: the source's warning at line 159
interpolates the ambient global name binding of the host environment,
which is outside this repository; its value is irrelevant to every
claim and is modelled as the empty string. -/
def globalName : String := ""

/-- Embeds toggleScrollLock (source lines 157-163): the argument
channel, defaulting to the current selection; when neither exists only
a warning is logged. -/
def OutputChannelManager.toggleScrollLock (m : OutputChannelManager) (arg : Option String) :
    OutputChannelManager × List Event :=
  let target : Option String :=
    match arg with
    | some n => some n
    | none => m.selectedChannelValue
  match target with
  | none => (m, [Event.warning ("Channel '" ++ globalName ++ "' does not exist.")])
  | some n => m.toggleLockedByName n

/-- Embeds onStart (source lines 48-55): the persisted value, when it
is an array of names, is added name by name to the lockedChannels set;
anything else (modelled as none) leaves the set as is.  Set.add keeps
one copy of each name. -/
def OutputChannelManager.onStart (m : OutputChannelManager) (stored : Option (List String)) :
    OutputChannelManager :=
  match stored with
  | some l =>
    { m with
      lockedChannels := l.foldl (fun acc x => if x ∈ acc then acc else acc ++ [x]) m.lockedChannels }
  | none => m

/-- Embeds onStop (source lines 57-60): the value persisted to the
storage service, namely the names of the currently registered channels
whose lock flag is set, in registry order. -/
def OutputChannelManager.onStop (m : OutputChannelManager) : List String :=
  (m.channels.filter (fun c => c.locked)).map (fun c => c.name)

/-- One call into the manager, as issued by its consumers.  Channels
are denoted by registry name: a consumer can only pass a channel
object it obtained from the manager.  setSelected models writes to the
public selectedChannel property with a registered channel or with
undefined. -/
inductive Op where
  | getChannel (n : String)
  | deleteChannel (n : String)
  | setVisibility (n : String) (v : Bool)
  | toggleScrollLock (arg : Option String)
  | setSelected (o : Option String)
  | onStart (stored : Option (List String))
  deriving Repr

/-- The state transition of one manager operation. -/
def applyOp (m : OutputChannelManager) : Op → OutputChannelManager
  | Op.getChannel n => (m.getChannel n).1
  | Op.deleteChannel n => (m.deleteChannel n).1
  | Op.setVisibility n v => (m.setVisibility n v).1
  | Op.toggleScrollLock a => (m.toggleScrollLock a).1
  | Op.setSelected none => (m.setSelectedChannel none).1
  | Op.setSelected (some n) =>
    if (m.getChannelByName n).isSome then (m.setSelectedChannel (some n)).1 else m
  | Op.onStart stored => m.onStart stored

/-- The manager state after a sequence of operations on a freshly
constructed manager. -/
def runOps (ops : List Op) : OutputChannelManager :=
  ops.foldl applyOp OutputChannelManager.initial

example :
    (runOps [Op.getChannel "one", Op.getChannel "two"]).selectedChannelValue = some "one" := by
  decide

example :
    (applyOp (runOps [Op.getChannel "one", Op.getChannel "two"])
      (Op.deleteChannel "one")).selectedChannelValue = some "two" := by
  decide

theorem getLines_eq_append_toList (ch : OutputChannel) :
    ch.getLines = ch.lines ++ ch.currentLine.toList := by
  cases hc : ch.currentLine <;> simp [OutputChannel.getLines, hc]

theorem append_lines_eq (ch : OutputChannel) (v : String) :
    (ch.append v).lines = ch.lines := by
  cases hc : ch.currentLine <;> simp [OutputChannel.append, hc]

theorem append_currentLine_eq (ch : OutputChannel) (v : String) :
    (ch.append v).currentLine = some (completeLine ch.currentLine v) := by
  cases hc : ch.currentLine <;> simp [OutputChannel.append, completeLine, hc]

theorem appendLine_no_truncate (ch : OutputChannel) (maxH : Nat) (l : String)
    (h : ch.lines.length + 1 ≤ maxH) :
    (ch.appendLine maxH l).lines = ch.lines ++ [completeLine ch.currentLine l] ∧
    (ch.appendLine maxH l).currentLine = none := by
  obtain ⟨nm, ls, cur, vis, lk⟩ := ch
  cases cur with
  | none =>
    simp only [OutputChannel.appendLine, completeLine]
    constructor
    · split
      · next hgt => exfalso; simp [List.length_append] at hgt; simp at h; omega
      · rfl
    · trivial
  | some c =>
    simp only [OutputChannel.appendLine, completeLine]
    constructor
    · split
      · next hgt => exfalso; simp [List.length_append] at hgt; simp at h; omega
      · rfl
    · trivial

theorem chRun_spec (maxH : Nat) :
    ∀ (ops : List ChOp) (ch : OutputChannel),
      ch.lines.length + (specCompletedLines ch.currentLine ops).length ≤ maxH →
      (chRun maxH ch ops).lines = ch.lines ++ specCompletedLines ch.currentLine ops ∧
      (chRun maxH ch ops).currentLine = specTrailing ch.currentLine ops := by
  intro ops
  induction ops with
  | nil =>
    intro ch h
    simp [chRun, specCompletedLines, specTrailing]
  | cons op rest ih =>
    intro ch h
    cases op with
    | append v =>
      have hrun : chRun maxH ch (ChOp.append v :: rest) = chRun maxH (ch.append v) rest := rfl
      have hspec : specCompletedLines ch.currentLine (ChOp.append v :: rest)
          = specCompletedLines (ch.append v).currentLine rest := by
        rw [append_currentLine_eq]
        simp [specCompletedLines]
      have htr : specTrailing ch.currentLine (ChOp.append v :: rest)
          = specTrailing (ch.append v).currentLine rest := by
        rw [append_currentLine_eq]
        simp [specTrailing]
      obtain ⟨h1, h2⟩ := ih (ch.append v) (by rw [append_lines_eq, ← hspec]; exact h)
      constructor
      · rw [hrun, hspec, h1, append_lines_eq]
      · rw [hrun, htr, h2]
    | appendLine l =>
      have hspec : specCompletedLines ch.currentLine (ChOp.appendLine l :: rest)
          = completeLine ch.currentLine l :: specCompletedLines none rest := rfl
      have htr : specTrailing ch.currentLine (ChOp.appendLine l :: rest)
          = specTrailing none rest := rfl
      have hlen : ch.lines.length + 1 + (specCompletedLines none rest).length ≤ maxH := by
        rw [hspec] at h
        simp only [List.length_cons] at h
        omega
      obtain ⟨hl, hc⟩ := appendLine_no_truncate ch maxH l (by omega)
      have hrun : chRun maxH ch (ChOp.appendLine l :: rest)
          = chRun maxH (ch.appendLine maxH l) rest := rfl
      obtain ⟨h1, h2⟩ := ih (ch.appendLine maxH l) (by
        rw [hl, hc]
        simp only [List.length_append, List.length_singleton]
        omega)
      constructor
      · rw [hrun, h1, hl, hc, hspec, List.append_assoc]
        rfl
      · rw [hrun, h2, hc, htr]

theorem getChannelByName_mem {m : OutputChannelManager} {n : String} {ch : OutputChannel}
    (h : m.getChannelByName n = some ch) : ch ∈ m.channels ∧ ch.name = n := by
  refine ⟨List.mem_of_find?_eq_some h, ?_⟩
  have := List.find?_some h
  simpa using this

theorem mem_channelNames_of_found {m : OutputChannelManager} {n : String} {ch : OutputChannel}
    (h : m.getChannelByName n = some ch) : n ∈ m.channelNames := by
  obtain ⟨hmem, hname⟩ := getChannelByName_mem h
  exact hname ▸ List.mem_map_of_mem _ hmem

theorem not_mem_channelNames_of_none {m : OutputChannelManager} {n : String}
    (h : m.getChannelByName n = none) : n ∉ m.channelNames := by
  intro hmem
  obtain ⟨c, hc, hname⟩ := List.mem_map.mp hmem
  have := List.find?_eq_none.mp h c hc
  simp [hname] at this

theorem getChannelByName_append_self {m : OutputChannelManager} {n : String}
    (h : m.getChannelByName n = none) (ch0 : OutputChannel) (hname : ch0.name = n) :
    ({ m with channels := m.channels ++ [ch0] } : OutputChannelManager).getChannelByName n
      = some ch0 := by
  unfold OutputChannelManager.getChannelByName at h ⊢
  rw [List.find?_append, h]
  simp [hname]

theorem find?_name_update (n : String) (f : OutputChannel → OutputChannel)
    (hf : ∀ c : OutputChannel, (f c).name = c.name) :
    ∀ l : List OutputChannel,
      (l.map (fun c => if c.name == n then f c else c)).find? (fun c => c.name == n)
        = (l.find? (fun c => c.name == n)).map f
  | [] => rfl
  | c :: t => by
    by_cases hc : c.name = n
    · rw [List.map_cons, List.find?_cons_of_pos _ (by simp [hc, hf]),
        List.find?_cons_of_pos _ (by simp [hc])]
      simp [hc]
    · rw [List.map_cons, List.find?_cons_of_neg _ (by simp [hc, hf]),
        List.find?_cons_of_neg _ (by simp [hc])]
      exact find?_name_update n f hf t

theorem map_name_update (n : String) (f : OutputChannel → OutputChannel)
    (hf : ∀ c : OutputChannel, (f c).name = c.name) :
    ∀ l : List OutputChannel,
      (l.map (fun c => if c.name == n then f c else c)).map (fun c => c.name)
        = l.map (fun c => c.name)
  | [] => rfl
  | c :: t => by
    by_cases hc : c.name = n
    · simp only [List.map_cons]
      rw [map_name_update n f hf t]
      simp [hc, hf]
    · simp only [List.map_cons]
      rw [map_name_update n f hf t]
      simp [hc]

theorem updateChannel_channelNames (m : OutputChannelManager) (n : String)
    (f : OutputChannel → OutputChannel) (hf : ∀ c : OutputChannel, (f c).name = c.name) :
    (m.updateChannel n f).channelNames = m.channelNames :=
  map_name_update n f hf m.channels

theorem updateChannel_getChannelByName (m : OutputChannelManager) (n : String)
    (f : OutputChannel → OutputChannel) (hf : ∀ c : OutputChannel, (f c).name = c.name) :
    (m.updateChannel n f).getChannelByName n = (m.getChannelByName n).map f :=
  find?_name_update n f hf m.channels

theorem toggleLockedByName_names_map (m : OutputChannelManager) (n : String) :
    (m.toggleLockedByName n).1.channels.map (fun c => c.name)
      = m.channels.map (fun c => c.name) := by
  unfold OutputChannelManager.toggleLockedByName
  cases h : m.getChannelByName n
  · rfl
  · exact updateChannel_channelNames m n _ (fun c => rfl)

theorem toggleLockedByName_channelNames (m : OutputChannelManager) (n : String) :
    (m.toggleLockedByName n).1.channelNames = m.channelNames :=
  toggleLockedByName_names_map m n

theorem toggleLockedByName_selected (m : OutputChannelManager) (n : String) :
    (m.toggleLockedByName n).1.selectedChannelValue = m.selectedChannelValue := by
  unfold OutputChannelManager.toggleLockedByName
  cases h : m.getChannelByName n <;> rfl

theorem toggleLockedByName_locked (m : OutputChannelManager) (n : String) :
    (m.toggleLockedByName n).1.lockedChannels = m.lockedChannels := by
  unfold OutputChannelManager.toggleLockedByName
  cases h : m.getChannelByName n <;> rfl

theorem registerListener_channelNames (m : OutputChannelManager) (n : String) :
    (m.registerListener n).1.channelNames = m.channelNames := by
  unfold OutputChannelManager.registerListener
  cases hs : m.selectedChannelValue <;>
    dsimp only <;>
    split <;> (try split) <;> (try split) <;>
    simp [toggleLockedByName_names_map, OutputChannelManager.channelNames,
      OutputChannelManager.setSelectedChannel]

theorem registerListener_locked (m : OutputChannelManager) (n : String) :
    (m.registerListener n).1.lockedChannels = m.lockedChannels := by
  unfold OutputChannelManager.registerListener
  cases hs : m.selectedChannelValue <;>
    dsimp only <;>
    split <;> (try split) <;> (try split) <;>
    simp [toggleLockedByName_locked, OutputChannelManager.setSelectedChannel]

theorem registerListener_selected (m : OutputChannelManager) (n : String) :
    (m.registerListener n).1.selectedChannelValue
      = (match m.selectedChannelValue with
         | none => some n
         | some k => some k) := by
  unfold OutputChannelManager.registerListener
  cases hs : m.selectedChannelValue <;>
    dsimp only <;>
    split <;> (try split) <;> (try split) <;>
    simp [hs, toggleLockedByName_selected, OutputChannelManager.setSelectedChannel]

/-- C1 (corrected): the claim quantifies over every call sequence, but
appendLine truncates the stored history to the configured bound, so a
sequence with more completed lines than the bound in effect refutes
it: with the bound set to 3, four appendLine calls leave only the last
three lines while the claim demands all four. -/
theorem C1_counterexample :
    OutputChannel.getLines
        (chRun 3 (OutputChannel.mkNew "channel")
          [ChOp.appendLine "a", ChOp.appendLine "b", ChOp.appendLine "c", ChOp.appendLine "d"])
      ≠ specCompletedLines none
          [ChOp.appendLine "a", ChOp.appendLine "b", ChOp.appendLine "c", ChOp.appendLine "d"]
        ++ (Option.toList (specTrailing none
          [ChOp.appendLine "a", ChOp.appendLine "b", ChOp.appendLine "c",
           ChOp.appendLine "d"])) := by
  decide

/-- C1 (amended): for every sequence of append and appendLine calls on
an initially empty channel whose number of completed lines stays
within the history bound in effect, getLines returns exactly the
completed lines in call order, with any trailing unterminated append
content as the final element; in particular append of Hel, append of
lo, appendLine of an exclamation mark yields a single line Hello
followed by the mark. -/
theorem C1_getLines_completed_in_order :
    (∀ (maxH : Nat) (ops : List ChOp),
      (specCompletedLines none ops).length ≤ maxH →
      OutputChannel.getLines (chRun maxH (OutputChannel.mkNew "channel") ops)
        = specCompletedLines none ops ++ (specTrailing none ops).toList) ∧
    OutputChannel.getLines
      (chRun 1000 (OutputChannel.mkNew "channel")
        [ChOp.append "Hel", ChOp.append "lo", ChOp.appendLine "!"]) = ["Hello!"] := by
  constructor
  · intro maxH ops h
    obtain ⟨h1, h2⟩ := chRun_spec maxH ops (OutputChannel.mkNew "channel") (by
      simp only [OutputChannel.mkNew]
      simpa using h)
    rw [getLines_eq_append_toList, h1, h2]
    simp [OutputChannel.mkNew]
  · decide

/-- C1 witness: the general part of the amended theorem applied to the
scenario of the claim under history bound 1000. -/
theorem C1_witness :
    (specCompletedLines none [ChOp.append "Hel", ChOp.append "lo", ChOp.appendLine "!"]).length
      ≤ 1000 ∧
    OutputChannel.getLines
        (chRun 1000 (OutputChannel.mkNew "channel")
          [ChOp.append "Hel", ChOp.append "lo", ChOp.appendLine "!"])
      = specCompletedLines none [ChOp.append "Hel", ChOp.append "lo", ChOp.appendLine "!"]
        ++ (Option.toList (specTrailing none
            [ChOp.append "Hel", ChOp.append "lo", ChOp.appendLine "!"])) :=
  ⟨by decide,
   C1_getLines_completed_in_order.1 1000
     [ChOp.append "Hel", ChOp.append "lo", ChOp.appendLine "!"] (by decide)⟩

/-- C2: every appendLine call re-reads the history bound (here the
parameter of the call), leaves at most that many stored completed
lines, and truncates from the front (the stored lines are a suffix of
the pushed history, of length exactly the smaller of the bound and the
pushed length, so the oldest lines go first); with bound 3, appending
lines a, b, c, d leaves exactly b, c, d. -/
theorem C2_appendLine_bounded_fifo :
    (∀ (ch : OutputChannel) (maxH : Nat) (l : String),
      (ch.appendLine maxH l).lines.length ≤ maxH ∧
      (ch.appendLine maxH l).lines <:+ (ch.lines ++ [completeLine ch.currentLine l]) ∧
      (ch.appendLine maxH l).lines.length
        = min maxH (ch.lines ++ [completeLine ch.currentLine l]).length) ∧
    OutputChannel.getLines
      (chRun 3 (OutputChannel.mkNew "c")
        [ChOp.appendLine "a", ChOp.appendLine "b", ChOp.appendLine "c",
         ChOp.appendLine "d"]) = ["b", "c", "d"] := by
  constructor
  · intro ch maxH l
    obtain ⟨nm, ls, cur, vis, lk⟩ := ch
    cases cur with
    | none =>
      simp only [OutputChannel.appendLine, completeLine]
      constructor
      · split
        · next hgt => simp [List.length_drop]; omega
        · next hle => simp [List.length_append] at hle ⊢; omega
      constructor
      · split
        · exact List.drop_suffix _ _
        · exact List.suffix_refl _
      · split
        · next hgt => simp [List.length_drop, List.length_append] at hgt ⊢; omega
        · next hle => simp [List.length_append] at hle ⊢; omega
    | some c =>
      simp only [OutputChannel.appendLine, completeLine]
      constructor
      · split
        · next hgt => simp [List.length_drop]; omega
        · next hle => simp [List.length_append] at hle ⊢; omega
      constructor
      · split
        · exact List.drop_suffix _ _
        · exact List.suffix_refl _
      · split
        · next hgt => simp [List.length_drop, List.length_append] at hgt ⊢; omega
        · next hle => simp [List.length_append] at hle ⊢; omega
  · decide

/-- C3 (corrected): the claim asserts that the returned collection
never aliases internal storage, but when no accumulator is present the
source returns the internal lines array itself rather than a fresh
copy; a channel holding one completed line and no accumulator is a
concrete state on which getLines takes the aliasing branch. -/
theorem C3_counterexample :
    OutputChannel.getLinesIsFreshCopy
        { name := "test", lines := ["a"], currentLine := none, visible := true,
          locked := false } = false ∧
    OutputChannel.getLines
        { name := "test", lines := ["a"], currentLine := none, visible := true,
          locked := false } = ["a"] := by
  decide

theorem setSelectedChannel_channels (m : OutputChannelManager) (o : Option String) :
    (m.setSelectedChannel o).1.channels = m.channels := rfl

theorem setSelectedChannel_channelNames (m : OutputChannelManager) (o : Option String) :
    (m.setSelectedChannel o).1.channelNames = m.channelNames := rfl

theorem setSelectedChannel_selected (m : OutputChannelManager) (o : Option String) :
    (m.setSelectedChannel o).1.selectedChannelValue = o := rfl

theorem getChannel_of_found {m : OutputChannelManager} {n : String} {ch : OutputChannel}
    (h : m.getChannelByName n = some ch) :
    m.getChannel n = (m, ch, ([] : List Event)) := by
  unfold OutputChannelManager.getChannel
  rw [h]

theorem getChannel_fst_of_none {m : OutputChannelManager} {n : String}
    (h : m.getChannelByName n = none) :
    (m.getChannel n).1
      = (({ m with channels := m.channels ++ [OutputChannel.mkNew n] }
          : OutputChannelManager).registerListener n).1 := by
  unfold OutputChannelManager.getChannel
  rw [h]

theorem removeFromRegistry_nodup {m : OutputChannelManager} (n : String)
    (h : m.channelNames.Nodup) : (m.removeFromRegistry n).channelNames.Nodup := by
  unfold OutputChannelManager.removeFromRegistry OutputChannelManager.channelNames
  exact List.Nodup.sublist (List.Sublist.map _ (List.filter_sublist _)) h

theorem mem_names_removeFromRegistry {m : OutputChannelManager} {n k : String}
    (hk : k ∈ m.channelNames) (hne : k ≠ n) : k ∈ (m.removeFromRegistry n).channelNames := by
  obtain ⟨c, hc, hname⟩ := List.mem_map.mp hk
  subst hname
  exact List.mem_map_of_mem _ (List.mem_filter.mpr ⟨hc, by simp [hne]⟩)

theorem visible_head_name_mem {m : OutputChannelManager} {ch : OutputChannel}
    (h : m.getVisibleChannels.head? = some ch) : ch.name ∈ m.channelNames := by
  have hmem : ch ∈ m.getVisibleChannels := List.mem_of_mem_head? h
  exact List.mem_map_of_mem _ (List.mem_filter.mp hmem).1

theorem deleteChannel_fst_of_none {m : OutputChannelManager} {n : String}
    (h : m.getChannelByName n = none) : (m.deleteChannel n).1 = m := by
  unfold OutputChannelManager.deleteChannel
  rw [h]

theorem deleteChannel_fst_selected {m : OutputChannelManager} {n : String} {ch : OutputChannel}
    (h : m.getChannelByName n = some ch) (hsel : m.selectedChannelValue = some n) :
    (m.deleteChannel n).1
      = ((m.removeFromRegistry n).setSelectedChannel
          (((m.removeFromRegistry n).getVisibleChannels.head?).map (fun c => c.name))).1 := by
  unfold OutputChannelManager.deleteChannel
  rw [h]
  dsimp only
  rw [if_pos
    (show (m.removeFromRegistry n).selectedChannelValue = some n from hsel)]

theorem deleteChannel_fst_not_selected {m : OutputChannelManager} {n : String}
    {ch : OutputChannel} (h : m.getChannelByName n = some ch)
    (hsel : ¬ m.selectedChannelValue = some n) :
    (m.deleteChannel n).1 = m.removeFromRegistry n := by
  unfold OutputChannelManager.deleteChannel
  rw [h]
  dsimp only
  rw [if_neg
    (show ¬ (m.removeFromRegistry n).selectedChannelValue = some n from hsel)]

theorem setVisibility_fst_of_none {m : OutputChannelManager} {n : String} (v : Bool)
    (h : m.getChannelByName n = none) : (m.setVisibility n v).1 = m := by
  unfold OutputChannelManager.setVisibility
  rw [h]

theorem setVisibility_fst_true {m : OutputChannelManager} {n : String} {ch : OutputChannel}
    (h : m.getChannelByName n = some ch) :
    (m.setVisibility n true).1
      = ((m.updateChannel n (fun c => c.setVisibilityFlag true)).setSelectedChannel (some n)).1 := by
  unfold OutputChannelManager.setVisibility
  rw [h]
  rfl

theorem setVisibility_fst_false_selected {m : OutputChannelManager} {n : String}
    {ch : OutputChannel} (h : m.getChannelByName n = some ch)
    (hsel : m.selectedChannelValue = some n) :
    (m.setVisibility n false).1
      = ((m.updateChannel n (fun c => c.setVisibilityFlag false)).setSelectedChannel
          (((m.updateChannel n (fun c => c.setVisibilityFlag false)).getVisibleChannels.head?).map
            (fun c => c.name))).1 := by
  unfold OutputChannelManager.setVisibility
  rw [h]
  dsimp only
  rw [if_neg (by simp),
    if_pos
      (show (m.updateChannel n (fun c => c.setVisibilityFlag false)).selectedChannelValue
          = some n from hsel)]

theorem setVisibility_fst_false_not_selected {m : OutputChannelManager} {n : String}
    {ch : OutputChannel} (h : m.getChannelByName n = some ch)
    (hsel : ¬ m.selectedChannelValue = some n) :
    (m.setVisibility n false).1 = m.updateChannel n (fun c => c.setVisibilityFlag false) := by
  unfold OutputChannelManager.setVisibility
  rw [h]
  dsimp only
  rw [if_neg (by simp),
    if_neg
      (show ¬ (m.updateChannel n (fun c => c.setVisibilityFlag false)).selectedChannelValue
          = some n from hsel)]

theorem toggleScrollLock_names_sel (m : OutputChannelManager) (a : Option String) :
    (m.toggleScrollLock a).1.channelNames = m.channelNames ∧
    (m.toggleScrollLock a).1.selectedChannelValue = m.selectedChannelValue := by
  unfold OutputChannelManager.toggleScrollLock
  cases a with
  | none =>
    dsimp only
    cases hs : m.selectedChannelValue with
    | none => exact ⟨rfl, hs⟩
    | some k =>
      exact ⟨toggleLockedByName_channelNames m k, (toggleLockedByName_selected m k).trans hs⟩
  | some k => exact ⟨toggleLockedByName_channelNames m k, toggleLockedByName_selected m k⟩

theorem onStart_channels_sel (m : OutputChannelManager) (stored : Option (List String)) :
    (m.onStart stored).channels = m.channels ∧
    (m.onStart stored).selectedChannelValue = m.selectedChannelValue := by
  cases stored <;> exact ⟨rfl, rfl⟩

theorem toggleLockedByName_find {m : OutputChannelManager} {n : String} {ch : OutputChannel}
    (h : m.getChannelByName n = some ch) :
    (m.toggleLockedByName n).1.getChannelByName n = some ch.toggleLockedFlag := by
  unfold OutputChannelManager.toggleLockedByName
  rw [h]
  dsimp only
  rw [updateChannel_getChannelByName m n OutputChannel.toggleLockedFlag (fun c => rfl), h]
  rfl

theorem toggleLockedByName_events {m : OutputChannelManager} {n : String} {ch : OutputChannel}
    (h : m.getChannelByName n = some ch) :
    (m.toggleLockedByName n).2
      = [Event.channelLockToggled n (!ch.locked), Event.managerLockChanged n] := by
  unfold OutputChannelManager.toggleLockedByName
  rw [h]

theorem registerListener_find {m : OutputChannelManager} {n : String} {ch : OutputChannel}
    (h : m.getChannelByName n = some ch) :
    (m.registerListener n).1.getChannelByName n = some ch ∨
    (m.registerListener n).1.getChannelByName n = some ch.toggleLockedFlag := by
  unfold OutputChannelManager.registerListener
  cases hs : m.selectedChannelValue with
  | none =>
    dsimp only
    have h1 : (m.setSelectedChannel (some n)).1.getChannelByName n = some ch := h
    by_cases hmem : n ∈ (m.setSelectedChannel (some n)).1.lockedChannels
    · rw [if_pos hmem, h1]
      dsimp only
      by_cases hlk : ch.locked
      · rw [if_pos hlk]
        exact Or.inl h1
      · rw [if_neg hlk]
        exact Or.inr (toggleLockedByName_find h1)
    · rw [if_neg hmem]
      exact Or.inl h1
  | some k =>
    dsimp only
    by_cases hmem : n ∈ m.lockedChannels
    · rw [if_pos hmem, h]
      dsimp only
      by_cases hlk : ch.locked
      · rw [if_pos hlk]
        exact Or.inl h
      · rw [if_neg hlk]
        exact Or.inr (toggleLockedByName_find h)
    · rw [if_neg hmem]
      exact Or.inl h

theorem registerListener_restore {m : OutputChannelManager} {n : String} {ch : OutputChannel}
    (h : m.getChannelByName n = some ch) (hmem : n ∈ m.lockedChannels)
    (hlk : ch.locked = false) :
    (m.registerListener n).1.getChannelByName n = some ch.toggleLockedFlag ∧
    (m.registerListener n).2
      = (match m.selectedChannelValue with
         | none => [Event.selectionChanged, Event.listOrSelectionChanged]
         | some _ => [])
        ++ [Event.channelLockToggled n (!ch.locked), Event.managerLockChanged n] := by
  unfold OutputChannelManager.registerListener
  cases hs : m.selectedChannelValue with
  | none =>
    dsimp only
    have h1 : (m.setSelectedChannel (some n)).1.getChannelByName n = some ch := h
    have hmem1 : n ∈ (m.setSelectedChannel (some n)).1.lockedChannels := hmem
    rw [if_pos hmem1, h1]
    dsimp only
    rw [if_neg (by simp [hlk])]
    exact ⟨toggleLockedByName_find h1, by rw [toggleLockedByName_events h1]; rfl⟩
  | some k =>
    dsimp only
    rw [if_pos hmem, h]
    dsimp only
    rw [if_neg (by simp [hlk])]
    exact ⟨toggleLockedByName_find h, by rw [toggleLockedByName_events h]⟩

theorem getChannel_snd_of_none {m : OutputChannelManager} {n : String}
    (h : m.getChannelByName n = none) :
    (m.getChannel n).2.1
      = ((({ m with channels := m.channels ++ [OutputChannel.mkNew n] }
          : OutputChannelManager).registerListener n).1.getChannelByName n).getD
          (OutputChannel.mkNew n) := by
  unfold OutputChannelManager.getChannel
  rw [h]

theorem getChannel_events_of_none {m : OutputChannelManager} {n : String}
    (h : m.getChannelByName n = none) :
    (m.getChannel n).2.2
      = Event.channelAdded n :: Event.listOrSelectionChanged ::
        (({ m with channels := m.channels ++ [OutputChannel.mkNew n] }
          : OutputChannelManager).registerListener n).2 := by
  unfold OutputChannelManager.getChannel
  rw [h]

theorem getChannel_find_self (m : OutputChannelManager) (n : String) :
    (m.getChannel n).1.getChannelByName n = some (m.getChannel n).2.1 := by
  cases hc : m.getChannelByName n with
  | some ch =>
    rw [getChannel_of_found hc]
    exact hc
  | none =>
    rw [getChannel_fst_of_none hc, getChannel_snd_of_none hc]
    rcases registerListener_find (getChannelByName_append_self hc (OutputChannel.mkNew n) rfl)
      with h1 | h1 <;> rw [h1] <;> rfl

theorem setVisibility_event_fired {m : OutputChannelManager} {n : String} {ch : OutputChannel}
    (h : m.getChannelByName n = some ch) (v : Bool) :
    Event.visibilityChanged n v ∈ (m.setVisibility n v).2 := by
  unfold OutputChannelManager.setVisibility
  rw [h]
  dsimp only
  exact List.mem_cons_self _ _

/-- The state invariant of the manager: the registry never holds two
channels sharing a name, and the selection is absent or a name present
in the registry. -/
def managerInv (m : OutputChannelManager) : Prop :=
  m.channelNames.Nodup ∧
  ∀ n : String, m.selectedChannelValue = some n → n ∈ m.channelNames

theorem managerInv_initial : managerInv OutputChannelManager.initial := by
  constructor
  · simp [OutputChannelManager.initial, OutputChannelManager.channelNames]
  · intro n h
    simp [OutputChannelManager.initial] at h

theorem managerInv_getChannel (m : OutputChannelManager) (n : String) (h : managerInv m) :
    managerInv (m.getChannel n).1 := by
  obtain ⟨hnd, hsel⟩ := h
  cases hc : m.getChannelByName n with
  | some ch =>
    rw [getChannel_of_found hc]
    exact ⟨hnd, hsel⟩
  | none =>
    rw [getChannel_fst_of_none hc]
    have hn : n ∉ m.channelNames := not_mem_channelNames_of_none hc
    have hnames1 :
        ({ m with channels := m.channels ++ [OutputChannel.mkNew n] }
          : OutputChannelManager).channelNames = m.channelNames ++ [n] := by
      simp [OutputChannelManager.channelNames, OutputChannel.mkNew]
    constructor
    · rw [registerListener_channelNames, hnames1]
      simp [List.nodup_append, hnd, hn]
    · intro k hk
      rw [registerListener_channelNames, hnames1]
      rw [registerListener_selected] at hk
      cases hs : m.selectedChannelValue with
      | none =>
        rw [show ({ m with channels := m.channels ++ [OutputChannel.mkNew n] }
            : OutputChannelManager).selectedChannelValue = m.selectedChannelValue from rfl, hs]
          at hk
        simp at hk
        subst hk
        simp
      | some j =>
        rw [show ({ m with channels := m.channels ++ [OutputChannel.mkNew n] }
            : OutputChannelManager).selectedChannelValue = m.selectedChannelValue from rfl, hs]
          at hk
        simp at hk
        subst hk
        exact List.mem_append_left _ (hsel _ hs)

theorem managerInv_deleteChannel (m : OutputChannelManager) (n : String) (h : managerInv m) :
    managerInv (m.deleteChannel n).1 := by
  obtain ⟨hnd, hsel⟩ := h
  cases hc : m.getChannelByName n with
  | none =>
    rw [deleteChannel_fst_of_none hc]
    exact ⟨hnd, hsel⟩
  | some ch =>
    by_cases hs : m.selectedChannelValue = some n
    · rw [deleteChannel_fst_selected hc hs]
      constructor
      · exact removeFromRegistry_nodup n hnd
      · intro k hk
        rw [setSelectedChannel_selected] at hk
        cases hh : (m.removeFromRegistry n).getVisibleChannels.head? with
        | none => rw [hh] at hk; simp at hk
        | some ch2 =>
          rw [hh] at hk
          simp at hk
          subst hk
          exact visible_head_name_mem hh
    · rw [deleteChannel_fst_not_selected hc hs]
      constructor
      · exact removeFromRegistry_nodup n hnd
      · intro k hk
        have hk0 : m.selectedChannelValue = some k := hk
        have hne : k ≠ n := by
          intro he
          subst he
          exact hs hk0
        exact mem_names_removeFromRegistry (hsel k hk0) hne

theorem managerInv_setVisibility (m : OutputChannelManager) (n : String) (v : Bool)
    (h : managerInv m) : managerInv (m.setVisibility n v).1 := by
  obtain ⟨hnd, hsel⟩ := h
  cases hc : m.getChannelByName n with
  | none =>
    rw [setVisibility_fst_of_none v hc]
    exact ⟨hnd, hsel⟩
  | some ch =>
    have hupd :
        (m.updateChannel n (fun c => c.setVisibilityFlag v)).channelNames = m.channelNames :=
      updateChannel_channelNames m n _ (fun c => rfl)
    cases v with
    | true =>
      rw [setVisibility_fst_true hc]
      constructor
      · rw [setSelectedChannel_channelNames, hupd]
        exact hnd
      · intro k hk
        rw [setSelectedChannel_selected] at hk
        have hk2 : n = k := by simpa using hk
        subst hk2
        rw [setSelectedChannel_channelNames, hupd]
        exact mem_channelNames_of_found hc
    | false =>
      by_cases hs : m.selectedChannelValue = some n
      · rw [setVisibility_fst_false_selected hc hs]
        constructor
        · rw [setSelectedChannel_channelNames, hupd]
          exact hnd
        · intro k hk
          rw [setSelectedChannel_selected] at hk
          cases hh :
              (m.updateChannel n (fun c => c.setVisibilityFlag false)).getVisibleChannels.head?
              with
          | none => rw [hh] at hk; simp at hk
          | some ch2 =>
            rw [hh] at hk
            simp at hk
            subst hk
            rw [setSelectedChannel_channelNames, hupd]
            have hmem := visible_head_name_mem hh
            rwa [hupd] at hmem
      · rw [setVisibility_fst_false_not_selected hc hs]
        constructor
        · rw [hupd]
          exact hnd
        · intro k hk
          have hk0 : m.selectedChannelValue = some k := hk
          rw [hupd]
          exact hsel k hk0

theorem managerInv_toggleScrollLock (m : OutputChannelManager) (a : Option String)
    (h : managerInv m) : managerInv (m.toggleScrollLock a).1 := by
  obtain ⟨hnd, hsel⟩ := h
  obtain ⟨h1, h2⟩ := toggleScrollLock_names_sel m a
  constructor
  · rw [h1]
    exact hnd
  · intro k hk
    rw [h2] at hk
    rw [h1]
    exact hsel k hk

theorem managerInv_applyOp (m : OutputChannelManager) (op : Op) (h : managerInv m) :
    managerInv (applyOp m op) := by
  cases op with
  | getChannel n => exact managerInv_getChannel m n h
  | deleteChannel n => exact managerInv_deleteChannel m n h
  | setVisibility n v => exact managerInv_setVisibility m n v h
  | toggleScrollLock a => exact managerInv_toggleScrollLock m a h
  | setSelected o =>
    cases o with
    | none =>
      refine ⟨h.1, ?_⟩
      intro k hk
      simp [applyOp, OutputChannelManager.setSelectedChannel] at hk
    | some n =>
      dsimp only [applyOp]
      split
      · next hg =>
        constructor
        · exact h.1
        · intro k hk
          rw [setSelectedChannel_selected] at hk
          have hk2 : n = k := by simpa using hk
          subst hk2
          obtain ⟨ch, hch⟩ := Option.isSome_iff_exists.mp hg
          rw [setSelectedChannel_channelNames]
          exact mem_channelNames_of_found hch
      · next => exact h
  | onStart stored =>
    obtain ⟨h1, h2⟩ := onStart_channels_sel m stored
    dsimp only [applyOp]
    constructor
    · show (m.onStart stored).channelNames.Nodup
      unfold OutputChannelManager.channelNames
      rw [h1]
      exact h.1
    · intro k hk
      rw [h2] at hk
      unfold OutputChannelManager.channelNames
      rw [h1]
      exact h.2 k hk

theorem managerInv_foldl (ops : List Op) :
    ∀ m : OutputChannelManager, managerInv m → managerInv (ops.foldl applyOp m) := by
  induction ops with
  | nil => intro m h; exact h
  | cons op rest ih =>
    intro m h
    exact ih (applyOp m op) (managerInv_applyOp m op h)

theorem managerInv_runOps (ops : List Op) : managerInv (runOps ops) :=
  managerInv_foldl ops OutputChannelManager.initial managerInv_initial

/-- C3 (amended): getLines returns the completed lines with the
in-progress accumulator appended as the last element when one is
present, and exactly the completed lines otherwise, and the call does
not mutate the stored state (the source method contains no
assignment); however the returned array is a fresh copy exactly when
an accumulator is present — with no accumulator the source returns the
internal lines array itself, so the result aliases internal storage. -/
theorem C3_getLines_snapshot :
    ∀ ch : OutputChannel,
      ch.getLines = ch.lines ++ ch.currentLine.toList ∧
      ch.getLinesIsFreshCopy = ch.currentLine.isSome := by
  intro ch
  constructor
  · exact getLines_eq_append_toList ch
  · cases hc : ch.currentLine <;> simp [OutputChannel.getLinesIsFreshCopy, hc]

/-- C4: deleting the channel that is currently selected moves the
selection to the first remaining visible channel of the shrunk
registry when one exists and to none otherwise, while deleting a
non-selected channel leaves the selection unchanged; and in the
two-channel scenario, after creating channels one and two (one is
selected automatically), deleting one selects two, and then deleting
two leaves no selection and an empty registry. -/
theorem C4_delete_selection_fallback :
    (∀ (m : OutputChannelManager) (n : String),
      (m.getChannelByName n).isSome →
      ((m.selectedChannelValue = some n →
          (m.deleteChannel n).1.selectedChannelValue
            = ((m.removeFromRegistry n).getVisibleChannels.head?).map (fun c => c.name)) ∧
       (m.selectedChannelValue ≠ some n →
          (m.deleteChannel n).1.selectedChannelValue = m.selectedChannelValue))) ∧
    ((runOps [Op.getChannel "one", Op.getChannel "two"]).selectedChannelValue = some "one" ∧
     (runOps [Op.getChannel "one", Op.getChannel "two",
        Op.deleteChannel "one"]).selectedChannelValue = some "two" ∧
     (runOps [Op.getChannel "one", Op.getChannel "two", Op.deleteChannel "one",
        Op.deleteChannel "two"]).selectedChannelValue = none ∧
     (runOps [Op.getChannel "one", Op.getChannel "two", Op.deleteChannel "one",
        Op.deleteChannel "two"]).getChannels = []) := by
  constructor
  · intro m n hg
    obtain ⟨ch, hch⟩ := Option.isSome_iff_exists.mp hg
    constructor
    · intro hs
      rw [deleteChannel_fst_selected hch hs, setSelectedChannel_selected]
    · intro hs
      rw [deleteChannel_fst_not_selected hch hs]
      rfl
  · exact ⟨by decide, by decide, by decide, by decide⟩

/-- C4 witness: the general fallback statement applied to the concrete
two-channel manager of the scenario, deleting the selected channel. -/
theorem C4_witness :
    ((runOps [Op.getChannel "one", Op.getChannel "two"]).getChannelByName "one").isSome ∧
    ((runOps [Op.getChannel "one", Op.getChannel "two"]).deleteChannel
        "one").1.selectedChannelValue
      = (((runOps [Op.getChannel "one", Op.getChannel "two"]).removeFromRegistry
          "one").getVisibleChannels.head?).map (fun c => c.name) :=
  ⟨by decide,
   (C4_delete_selection_fallback.1 (runOps [Op.getChannel "one", Op.getChannel "two"]) "one"
      (by decide)).1 (by decide)⟩

/-- C5: getChannel is idempotent per name — after any first call, a
second call with the same name returns the very channel the registry
holds, leaves the manager unchanged and fires no event at all (in
particular no second added-event); a channel is constructed with
visible true, lock flag false and an empty buffer; getChannel
preserves the uniqueness of registry names; and a call for an
unregistered name fires the added-event and leaves the returned
channel registered under the name. -/
theorem C5_getChannel_idempotent :
    (∀ (m : OutputChannelManager) (n : String),
      (m.getChannel n).1.getChannel n
        = ((m.getChannel n).1, (m.getChannel n).2.1, ([] : List Event))) ∧
    (∀ n : String,
      OutputChannel.mkNew n
        = { name := n, lines := [], currentLine := none, visible := true, locked := false }) ∧
    (∀ (m : OutputChannelManager) (n : String),
      m.channelNames.Nodup → (m.getChannel n).1.channelNames.Nodup) ∧
    (∀ (m : OutputChannelManager) (n : String),
      m.getChannelByName n = none →
      Event.channelAdded n ∈ (m.getChannel n).2.2 ∧
      (m.getChannel n).1.getChannelByName n = some (m.getChannel n).2.1) := by
  refine ⟨?_, ?_, ?_, ?_⟩
  · intro m n
    exact getChannel_of_found (getChannel_find_self m n)
  · intro n
    rfl
  · intro m n hnd
    cases hc : m.getChannelByName n with
    | some ch =>
      rw [getChannel_of_found hc]
      exact hnd
    | none =>
      rw [getChannel_fst_of_none hc, registerListener_channelNames]
      have hn := not_mem_channelNames_of_none hc
      have hnames1 :
          ({ m with channels := m.channels ++ [OutputChannel.mkNew n] }
            : OutputChannelManager).channelNames = m.channelNames ++ [n] := by
        simp [OutputChannelManager.channelNames, OutputChannel.mkNew]
      rw [hnames1]
      simp [List.nodup_append, hnd, hn]
  · intro m n hc
    constructor
    · rw [getChannel_events_of_none hc]
      exact List.mem_cons_self _ _
    · exact getChannel_find_self m n

/-- C5 witness: the parts of the theorem with hypotheses, applied to a
fresh manager and the name one. -/
theorem C5_witness :
    OutputChannelManager.initial.channelNames.Nodup ∧
    (OutputChannelManager.initial.getChannel "one").1.channelNames.Nodup ∧
    OutputChannelManager.initial.getChannelByName "one" = none ∧
    Event.channelAdded "one" ∈ (OutputChannelManager.initial.getChannel "one").2.2 :=
  ⟨by decide,
   C5_getChannel_idempotent.2.2.1 OutputChannelManager.initial "one" (by decide),
   by decide,
   (C5_getChannel_idempotent.2.2.2 OutputChannelManager.initial "one" (by decide)).1⟩

/-- C6: in every state the manager reaches from its initial state by
channel creation, deletion, visibility changes, selection changes,
lock toggles or onStart, the selection (a single optional slot, so at
most one channel is ever selected) is either absent or a name present
in the channel registry. -/
theorem C6_selection_in_registry :
    ∀ (ops : List Op) (n : String),
      (runOps ops).selectedChannelValue = some n → n ∈ (runOps ops).channelNames :=
  fun ops n h => (managerInv_runOps ops).2 n h

/-- C6 witness: after creating channel a, the selection is a and a is
registered. -/
theorem C6_witness :
    (runOps [Op.getChannel "a"]).selectedChannelValue = some "a" ∧
    "a" ∈ (runOps [Op.getChannel "a"]).channelNames :=
  ⟨by decide, C6_selection_in_registry [Op.getChannel "a"] "a" (by decide)⟩

/-- C7: the two non-fatal error cases change nothing — deleting an
unknown channel name returns the manager unchanged and emits only the
diagnostic warning of the source (no delete-event), and
toggleScrollLock with no argument and no current selection returns the
manager unchanged and emits only its diagnostic warning. -/
theorem C7_nonfatal_warnings :
    (∀ (m : OutputChannelManager) (n : String),
      m.getChannelByName n = none →
      m.deleteChannel n
        = (m, [Event.warning
            ("Could not delete channel '" ++ n ++ "'. The channel does not exist.")])) ∧
    (∀ m : OutputChannelManager,
      m.selectedChannelValue = none →
      m.toggleScrollLock none
        = (m, [Event.warning ("Channel '" ++ globalName ++ "' does not exist.")])) := by
  constructor
  · intro m n h
    unfold OutputChannelManager.deleteChannel
    rw [h]
  · intro m h
    unfold OutputChannelManager.toggleScrollLock
    dsimp only
    rw [h]

/-- C7 witness: both warning cases on a fresh manager. -/
theorem C7_witness :
    OutputChannelManager.initial.getChannelByName "ghost" = none ∧
    OutputChannelManager.initial.deleteChannel "ghost"
      = (OutputChannelManager.initial,
         [Event.warning
           ("Could not delete channel '" ++ "ghost" ++ "'. The channel does not exist.")]) ∧
    OutputChannelManager.initial.selectedChannelValue = none ∧
    OutputChannelManager.initial.toggleScrollLock none
      = (OutputChannelManager.initial,
         [Event.warning ("Channel '" ++ globalName ++ "' does not exist.")]) :=
  ⟨by decide,
   C7_nonfatal_warnings.1 OutputChannelManager.initial "ghost" (by decide),
   by decide,
   C7_nonfatal_warnings.2 OutputChannelManager.initial (by decide)⟩

/-- C8: onStart only records the persisted names — it touches neither
the registry nor any channel, so no lock flag changes then; the first
getChannel call that constructs a channel whose name was recorded
returns it with the lock flag set, having applied exactly one toggle
(a true lock-toggle event fires and no false one does); and getChannel
on an already registered name changes nothing and fires nothing, so
restoration happens only at construction time. -/
theorem C8_lazy_lock_restoration :
    (∀ (m : OutputChannelManager) (stored : Option (List String)),
      (m.onStart stored).channels = m.channels ∧
      (m.onStart stored).selectedChannelValue = m.selectedChannelValue) ∧
    (∀ (m : OutputChannelManager) (n : String),
      n ∈ m.lockedChannels → m.getChannelByName n = none →
      ((m.getChannel n).2.1).locked = true ∧
      Event.channelLockToggled n true ∈ (m.getChannel n).2.2 ∧
      Event.channelLockToggled n false ∉ (m.getChannel n).2.2) ∧
    (∀ (m : OutputChannelManager) (n : String) (ch : OutputChannel),
      m.getChannelByName n = some ch → m.getChannel n = (m, ch, ([] : List Event))) := by
  refine ⟨?_, ?_, ?_⟩
  · intro m stored
    exact onStart_channels_sel m stored
  · intro m n hmem hc
    have hadd := getChannelByName_append_self hc (OutputChannel.mkNew n) rfl
    have hmem1 :
        n ∈ ({ m with channels := m.channels ++ [OutputChannel.mkNew n] }
          : OutputChannelManager).lockedChannels := hmem
    obtain ⟨hfind, hevs⟩ := registerListener_restore hadd hmem1 rfl
    refine ⟨?_, ?_, ?_⟩
    · rw [getChannel_snd_of_none hc, hfind]
      rfl
    · rw [getChannel_events_of_none hc, hevs]
      cases hs : m.selectedChannelValue with
      | none => simp [OutputChannel.mkNew]
      | some k => simp [OutputChannel.mkNew]
    · rw [getChannel_events_of_none hc, hevs]
      cases hs : m.selectedChannelValue with
      | none => simp [OutputChannel.mkNew]
      | some k => simp [OutputChannel.mkNew]
  · intro m n ch hch
    exact getChannel_of_found hch

/-- C8 witness: after onStart records the name chan, the first
getChannel for chan returns a locked channel. -/
theorem C8_witness :
    "chan" ∈ (OutputChannelManager.initial.onStart (some ["chan"])).lockedChannels ∧
    (OutputChannelManager.initial.onStart (some ["chan"])).getChannelByName "chan" = none ∧
    (((OutputChannelManager.initial.onStart (some ["chan"])).getChannel
        "chan").2.1).locked = true :=
  ⟨by decide, by decide,
   (C8_lazy_lock_restoration.2.1 (OutputChannelManager.initial.onStart (some ["chan"])) "chan"
      (by decide) (by decide)).1⟩

/-- C9: for every registered channel, a setVisibility call with true
makes that channel the selected one — the visibility event fires
unconditionally and the per-channel wiring selects any channel
reporting itself visible, even when the flag already was true and a
different channel was selected. -/
theorem C9_setVisibility_selects :
    ∀ (m : OutputChannelManager) (n : String),
      (m.getChannelByName n).isSome →
      (m.setVisibility n true).1.selectedChannelValue = some n ∧
      Event.visibilityChanged n true ∈ (m.setVisibility n true).2 := by
  intro m n hg
  obtain ⟨ch, hch⟩ := Option.isSome_iff_exists.mp hg
  constructor
  · rw [setVisibility_fst_true hch, setSelectedChannel_selected]
  · exact setVisibility_event_fired hch true

/-- C9 witness: with channels a and b both visible and a selected,
setVisibility true on b selects b and still fires the visibility
event although the flag did not change. -/
theorem C9_witness :
    ((runOps [Op.getChannel "a", Op.getChannel "b"]).getChannelByName "b").isSome ∧
    ((runOps [Op.getChannel "a", Op.getChannel "b"]).setVisibility "b"
        true).1.selectedChannelValue = some "b" ∧
    Event.visibilityChanged "b" true
      ∈ ((runOps [Op.getChannel "a", Op.getChannel "b"]).setVisibility "b" true).2 :=
  ⟨by decide,
   (C9_setVisibility_selects (runOps [Op.getChannel "a", Op.getChannel "b"]) "b" (by decide)).1,
   (C9_setVisibility_selects (runOps [Op.getChannel "a", Op.getChannel "b"]) "b" (by decide)).2⟩

/-- C10: a name is persisted by onStop exactly when a channel of that
name is registered and its lock flag is set; in particular a name that
onStart loaded but whose channel was never recreated is not persisted,
so its locked status is lost at the next shutdown. -/
theorem C10_onStop_persists_locked :
    (∀ (m : OutputChannelManager) (n : String),
      n ∈ m.onStop ↔ ∃ ch ∈ m.channels, ch.name = n ∧ ch.locked = true) ∧
    (∀ (m : OutputChannelManager) (n : String),
      n ∈ m.lockedChannels → n ∉ m.channelNames → n ∉ m.onStop) := by
  constructor
  · intro m n
    unfold OutputChannelManager.onStop
    simp only [List.mem_map, List.mem_filter]
    constructor
    · rintro ⟨c, ⟨h1, h2⟩, h3⟩
      exact ⟨c, h1, h3, h2⟩
    · rintro ⟨c, h1, h2, h3⟩
      exact ⟨c, ⟨h1, h3⟩, h2⟩
  · intro m n hmem hn hstop
    unfold OutputChannelManager.onStop at hstop
    obtain ⟨c, hc, hcn⟩ := List.mem_map.mp hstop
    exact hn (hcn ▸ List.mem_map_of_mem _ (List.mem_filter.mp hc).1)

/-- C10 witness: the name x recorded by onStart without its channel
ever being created is not persisted by onStop. -/
theorem C10_witness :
    "x" ∈ (OutputChannelManager.initial.onStart (some ["x"])).lockedChannels ∧
    "x" ∉ (OutputChannelManager.initial.onStart (some ["x"])).channelNames ∧
    "x" ∉ (OutputChannelManager.initial.onStart (some ["x"])).onStop :=
  ⟨by decide, by decide,
   C10_onStop_persists_locked.2 (OutputChannelManager.initial.onStart (some ["x"])) "x"
     (by decide) (by decide)⟩
